import Mathlib

/-!
# Verification of the pprof CPU-profile analyzer (`pb/pprof.go`)

This file gives a shallow embedding of the core of the repository:
`AnalyzeCPUProfile`, `buildFunctionInfoMap`, `findLocation` and
`updateFunctionNodes` from `pb/pprof.go`, together with theorems about the
claims of the specification.

Modelling conventions:
* Go `float64` arithmetic is modelled over `ℚ` (the spec itself phrases the
  numerical property as "exact over rationals"); `int64`/`uint64` are
  modelled as `Int`/`Nat` (no claim depends on wrap-around).
* Go maps (`map[string]*FunctionNode`, `map[uint64]FunctionInfo`) are
  modelled as association lists with insert-or-overwrite update
  (`aupdate`) and first-match lookup (`alookup`); a Go map assignment
  overwrites in place, which `aupdate` mirrors.
* A Go pointer to the node of function name `k` is stable for the whole
  analysis (nodes are created once and then mutated in place), so a stored
  child pointer is modelled as `Option String`: `some k` for a pointer to
  the node keyed `k`, `none` for a stored `nil` pointer (which Go
  `nodes[name]` yields when `name` is absent).
* A Go runtime panic (out-of-range slice index) is modelled as
  `Except.error`: `buildFunctionInfoMap` guards `fn.Name` only from above
  (`fn.Name < int64(len(p.StringTable))`), so a negative name index passes
  the guard and the subsequent indexing panics; likewise
  `p.StringTable[st.Type]` in the sample-type scan is entirely unguarded.
  At the top level a panic is the distinguished outcome
  `AnalyzeError.panic`, which is a crash of the Go program, not a returned
  Go `error` value.
* The classifier `shouldAttrFn` loads its data from the Go toolchain at
  process start; per §4.4 of the spec it is a pluggable total predicate,
  so the embedding takes it as an explicit parameter `fn : String → Bool`.
-/

namespace PProf

/-- pprof `ValueType` message: string-table indices for type and unit. -/
structure ValueType where
  type : Int
  unit : Int
deriving Repr, DecidableEq

/-- pprof `Line` message (only the field the code reads). -/
structure Line where
  functionId : Nat
deriving Repr, DecidableEq

/-- pprof `Location` message (only the fields the code reads). -/
structure Location where
  id : Nat
  line : List Line
deriving Repr, DecidableEq

/-- pprof `Function` message: `name`/`filename` are `int64` string-table
indices. -/
structure Function where
  id : Nat
  name : Int
  filename : Int
deriving Repr, DecidableEq

/-- pprof `Sample` message: leaf-first location ids and one value per
sample type. -/
structure Sample where
  locationId : List Nat
  value : List Int
deriving Repr, DecidableEq

/-- Decoded pprof profile (the fields `AnalyzeCPUProfile` consumes). -/
structure Profile where
  sampleType : List ValueType
  sample : List Sample
  location : List Location
  function : List Function
  stringTable : List String
deriving Repr, DecidableEq

/-- `type Stack struct` of `pb/pprof.go` (one resolved frame). -/
structure Stack where
  name : String
  fileName : String
deriving Repr, DecidableEq

/-- `type FunctionInfo struct` of `pb/pprof.go`. -/
structure FunctionInfo where
  name : String
  fileName : String
deriving Repr, DecidableEq

/-- `type FunctionNode struct` of `pb/pprof.go`.  `children` models the Go
`map[string]*FunctionNode`: each entry is the map key paired with the
stored pointer (`some k` = pointer to the node keyed `k`, `none` = `nil`). -/
structure FunctionNode where
  name : String
  fileName : String
  selfAttrCPU : ℚ
  selfCPU : ℚ
  totalCPU : ℚ
  children : List (String × Option String)
  parentCount : Nat
deriving Repr, DecidableEq

/-- The node mapping `map[string]*FunctionNode`. -/
abbrev NodeMap := List (String × FunctionNode)

/-- First-match lookup in an association list (Go map read). -/
def alookup {κ β : Type} [DecidableEq κ] : List (κ × β) → κ → Option β
  | [], _ => none
  | (k0, v0) :: rest, k => if k0 = k then some v0 else alookup rest k

/-- Insert-or-overwrite (Go map assignment `m[k] = v`). -/
def aupdate {κ β : Type} [DecidableEq κ] : List (κ × β) → κ → β → List (κ × β)
  | [], k, v => [(k, v)]
  | (k0, v0) :: rest, k, v =>
    if k0 = k then (k, v) :: rest else (k0, v0) :: aupdate rest k v

/-- Go slice read `l[i]` with an `int64` index, as a partial operation:
`none` models the runtime panic for an out-of-range (in particular
negative) index. -/
def goIndex {α : Type} (l : List α) (i : Int) : Option α :=
  if 0 ≤ i then l[i.toNat]? else none

/-- `buildFunctionInfoMap` (pb/pprof.go lines 118-132).  The Go code checks
only `fn.Name < int64(len(p.StringTable))` (and similarly for
`fn.Filename`), so a negative index passes the guard and the slice access
panics: that is the `Except.error ()` outcome. -/
def buildFunctionInfoMap (p : Profile) : Except Unit (List (Nat × FunctionInfo)) :=
  p.function.foldlM
    (fun funcMap fn =>
      if fn.name < (p.stringTable.length : Int) then
        match goIndex p.stringTable fn.name with
        | none => .error ()
        | some nm =>
          if fn.filename < (p.stringTable.length : Int) then
            match goIndex p.stringTable fn.filename with
            | none => .error ()
            | some fl => .ok (aupdate funcMap fn.id ⟨nm, fl⟩)
          else
            .ok (aupdate funcMap fn.id ⟨nm, ""⟩)
      else
        .ok funcMap)
    []

/-- `findLocation` (pb/pprof.go lines 135-142): first location with a
matching id. -/
def findLocation (p : Profile) (id : Nat) : Option Location :=
  p.location.find? (fun loc => loc.id == id)

/-- Substring test, mirroring Go `strings.Contains`. -/
def strContains (s sub : String) : Bool :=
  s.toList.tails.any (fun t => sub.toList.isPrefixOf t)

/-- Per-character lowering, mirroring Go `strings.ToLower` (the claims
only exercise the ASCII range, where the two agree). -/
def toLowerGo (s : String) : String :=
  String.mk (s.data.map Char.toLower)

/-- `strings.Contains(strings.ToLower(typeName), "cpu")` (line 44). -/
def isCpuLabel (s : String) : Bool :=
  strContains (toLowerGo s) "cpu"

/-- The CPU-column scan of `AnalyzeCPUProfile` (lines 41-48).  The Go read
`p.StringTable[st.Type]` is unguarded, so an out-of-range type index
panics (`Except.error ()`); the first matching column wins. -/
def findCpuIdxGo (tbl : List String) : List ValueType → Nat → Except Unit (Option Nat)
  | [], _ => .ok none
  | st :: rest, i =>
    match goIndex tbl st.type with
    | none => .error ()
    | some nm =>
      if isCpuLabel nm then .ok (some i) else findCpuIdxGo tbl rest (i + 1)

/-- CPU sample-type column of a profile (`cpuIdx`), or `none`, or panic. -/
def findCpuIdx (p : Profile) : Except Unit (Option Nat) :=
  findCpuIdxGo p.stringTable p.sampleType 0

/-- The `totalCPU` accumulation of `AnalyzeCPUProfile` (lines 54-59):
samples lacking a value at the chosen column contribute nothing. -/
def totalCPUSum (samples : List Sample) (cpuIdx : Nat) : Int :=
  samples.foldl
    (fun acc s => match s.value[cpuIdx]? with | some v => acc + v | none => acc)
    0

/-- Resolution of one location id into a frame (the body of the stack-trace
loop, lines 78-88): a dangling location id, an empty line list, or an
unresolvable function id drops the frame (`none`); only the first line
entry of the location is consulted. -/
def resolveOne (p : Profile) (fim : List (Nat × FunctionInfo)) (lid : Nat) : Option Stack :=
  match findLocation p lid with
  | none => none
  | some loc =>
    match loc.line with
    | [] => none
    | l0 :: _ => (alookup fim l0.functionId).map (fun info => ⟨info.name, info.fileName⟩)

/-- The stack-trace loop of `AnalyzeCPUProfile` (lines 77-89):
`for i := len(sample.LocationId) - 1; i >= 0; i--` appending each resolved
frame.  `resolveGo … (j+1) acc` performs the iteration with `i = j` and
then continues with the lower indices. -/
def resolveGo (p : Profile) (fim : List (Nat × FunctionInfo)) (locIds : List Nat) :
    Nat → List Stack → List Stack
  | 0, acc => acc
  | j + 1, acc =>
    resolveGo p fim locIds j
      (match locIds[j]? with
       | none => acc
       | some lid =>
         match resolveOne p fim lid with
         | none => acc
         | some st => acc ++ [st])

/-- Resolved (root-first) stack of one sample. -/
def resolveStack (p : Profile) (fim : List (Nat × FunctionInfo)) (locIds : List Nat) :
    List Stack :=
  resolveGo p fim locIds locIds.length []

/-- Fresh node (`&FunctionNode{Name: …, FileName: …, Children: …}`,
lines 156-160): every numeric field starts at the Go zero value. -/
def emptyNode (entry : Stack) : FunctionNode :=
  { name := entry.name
    fileName := entry.fileName
    selfAttrCPU := 0
    selfCPU := 0
    totalCPU := 0
    children := []
    parentCount := 0 }

/-- The state of the node for `entry.name` after one iteration of the
`updateFunctionNodes` loop at index `i` (lines 153-185): get-or-create,
`ParentCount++`, `TotalCPU += cpuTime`, the leaf rule (`i == len(stack)-1`),
the parent-attribution rule (`i == len(stack)-2`), and child registration
(`i < len(stack)-1`; the stored reference is whatever `nodes[childName]`
currently holds — `nil`, i.e. `none`, when absent). -/
def bodyNode (m : NodeMap) (stack : List Stack) (cpuTime : ℚ) (attrCPU : Bool)
    (shouldAttrFn : String → Bool) (i : Nat) (entry : Stack) : FunctionNode :=
  let node0 := (alookup m entry.name).getD (emptyNode entry)
  let node1 := { node0 with parentCount := node0.parentCount + 1, totalCPU := node0.totalCPU + cpuTime }
  let node2 :=
    if i + 1 = stack.length then
      { node1 with selfCPU := node1.selfCPU + cpuTime, selfAttrCPU := node1.selfAttrCPU + cpuTime }
    else node1
  let node3 :=
    if i + 2 = stack.length then
      match stack[i + 1]? with
      | some child =>
        if attrCPU && shouldAttrFn child.name then
          { node2 with selfAttrCPU := node2.selfAttrCPU + cpuTime }
        else node2
      | none => node2
    else node2
  if i + 1 < stack.length then
    match stack[i + 1]? with
    | some childEntry =>
      if (alookup node3.children childEntry.name).isSome then node3
      else
        { node3 with
            children := node3.children ++
              [(childEntry.name,
                if (alookup (aupdate m entry.name node3) childEntry.name).isSome then
                  some childEntry.name
                else none)] }
    | none => node3
  else node3

/-- One iteration of the `updateFunctionNodes` loop at index `i`. -/
def updateAt (m : NodeMap) (stack : List Stack) (cpuTime : ℚ) (attrCPU : Bool)
    (shouldAttrFn : String → Bool) (i : Nat) : NodeMap :=
  match stack[i]? with
  | none => m
  | some entry => aupdate m entry.name (bodyNode m stack cpuTime attrCPU shouldAttrFn i entry)

/-- The loop `for i := len(stack) - 1; i >= 0; i--` of
`updateFunctionNodes` (line 152): `updGo … (j+1) m` runs the iteration at
index `j` and then the iterations at indices `j-1, …, 0`. -/
def updGo (stack : List Stack) (cpuTime : ℚ) (attrCPU : Bool)
    (shouldAttrFn : String → Bool) : Nat → NodeMap → NodeMap
  | 0, m => m
  | j + 1, m => updGo stack cpuTime attrCPU shouldAttrFn j (updateAt m stack cpuTime attrCPU shouldAttrFn j)

/-- `updateFunctionNodes` (pb/pprof.go lines 145-187). -/
def updateFunctionNodes (m : NodeMap) (stack : List Stack) (cpuTime : ℚ)
    (attrCPU : Bool) (shouldAttrFn : String → Bool) : NodeMap :=
  updGo stack cpuTime attrCPU shouldAttrFn stack.length m

/-- Outcomes of `AnalyzeCPUProfile`: the three returned `error` values
(nil profile, no CPU sample type, no CPU time) and the runtime panic. -/
inductive AnalyzeError where
  | panic
  | nilProfile
  | noCPUSampleType
  | noCPUTime
deriving Repr, DecidableEq

/-- The per-sample step of the `for _, sample := range p.Sample` loop
(lines 68-95): skip when the value column is missing, otherwise compute
`cpuTime`, resolve the stack and — when the stack is non-empty — update
the nodes. -/
def sampleStep (p : Profile) (fim : List (Nat × FunctionInfo)) (cpuIdx : Nat)
    (total : Int) (attrCPU : Bool) (shouldAttrFn : String → Bool)
    (m : NodeMap) (s : Sample) : NodeMap :=
  match s.value[cpuIdx]? with
  | none => m
  | some v =>
    let cpuTime : ℚ := (v : ℚ) / (total : ℚ) * 100
    let stack := resolveStack p fim s.locationId
    if 0 < stack.length then updateFunctionNodes m stack cpuTime attrCPU shouldAttrFn else m

/-- `AnalyzeCPUProfile` (pb/pprof.go lines 32-98), with the classifier
`shouldAttrFn` passed explicitly (§4.4 of the spec). -/
def AnalyzeCPUProfile (p? : Option Profile) (attrCPU : Bool)
    (shouldAttrFn : String → Bool) : Except AnalyzeError NodeMap :=
  match p? with
  | none => .error .nilProfile
  | some p =>
    match buildFunctionInfoMap p with
    | .error _ => .error .panic
    | .ok fim =>
      match findCpuIdx p with
      | .error _ => .error .panic
      | .ok none => .error .noCPUSampleType
      | .ok (some cpuIdx) =>
        let total := totalCPUSum p.sample cpuIdx
        if total = 0 then .error .noCPUTime
        else .ok (p.sample.foldl (sampleStep p fim cpuIdx total attrCPU shouldAttrFn) [])

/-- The list of `cpuTime` values of the processed samples (line 73,
restricted to the samples with a value at the chosen column, lines 69-71). -/
def sampleCpuTimes (samples : List Sample) (cpuIdx : Nat) (total : Int) : List ℚ :=
  samples.filterMap (fun s => (s.value[cpuIdx]?).map (fun v : Int => (v : ℚ) / (total : ℚ) * 100))

/-- View: `SelfCPU` of the node for `name` (0 when the node is absent,
matching the Go zero value a fresh node starts from). -/
def selfF (m : NodeMap) (name : String) : ℚ :=
  ((alookup m name).map FunctionNode.selfCPU).getD 0

/-- View: `SelfAttrCPU` of the node for `name`. -/
def attrF (m : NodeMap) (name : String) : ℚ :=
  ((alookup m name).map FunctionNode.selfAttrCPU).getD 0

/-- View: `TotalCPU` of the node for `name`. -/
def totalF (m : NodeMap) (name : String) : ℚ :=
  ((alookup m name).map FunctionNode.totalCPU).getD 0

/-- View: `ParentCount` of the node for `name`. -/
def parentF (m : NodeMap) (name : String) : Nat :=
  ((alookup m name).map FunctionNode.parentCount).getD 0

/-- View: `FileName` of the node for `name` (when the node exists). -/
def fileF (m : NodeMap) (name : String) : Option String :=
  (alookup m name).map FunctionNode.fileName

/-- Name of the leaf frame `stack[n-1]` of a root-first stack. -/
def leafName (stack : List Stack) : String :=
  ((stack[stack.length - 1]?).map Stack.name).getD ""

/-- Name of the immediate parent frame `stack[n-2]` of a root-first stack. -/
def parentName (stack : List Stack) : String :=
  ((stack[stack.length - 2]?).map Stack.name).getD ""

/-- Number of occurrences of a function name in a stack. -/
def countName (stack : List Stack) (name : String) : Nat :=
  (stack.filter (fun s => s.name == name)).length

/-- Left-biased choice on options (Go "keep the existing value"). -/
def optOr {α : Type} (a b : Option α) : Option α :=
  match a with
  | some x => some x
  | none => b

/-- The condition under which the iteration at index `i` fires the
parent-attribution rule (lines 172-176): `i` is the index of the immediate
parent of the leaf, attribution is enabled, and the classifier reports the
leaf function as core. -/
def attrHit (stack : List Stack) (attrCPU : Bool) (shouldAttrFn : String → Bool)
    (i : Nat) : Bool :=
  (i + 2 == stack.length) &&
    (match stack[i + 1]? with
     | some child => attrCPU && shouldAttrFn child.name
     | none => false)

/-- First frame with a given name in a list of frames, projected to its
file name. -/
def ffind (frames : List Stack) (name : String) : Option String :=
  (frames.find? (fun s => s.name == name)).map Stack.fileName

/-- The frames of a profile in the order the accumulator encounters them:
samples in input order, each processed sample's resolved stack from leaf
(index `n-1`) to root (index 0). -/
def encounters (p : Profile) (fim : List (Nat × FunctionInfo)) (cpuIdx : Nat)
    (samples : List Sample) : List Stack :=
  (samples.filterMap
    (fun s => (s.value[cpuIdx]?).map
      (fun _ : Int => (resolveStack p fim s.locationId).reverse))).flatten

/-- File name of the first resolution encountered for `name` during an
analysis run. -/
def firstFileName (p : Profile) (fim : List (Nat × FunctionInfo)) (cpuIdx : Nat)
    (samples : List Sample) (name : String) : Option String :=
  ffind (encounters p fim cpuIdx samples) name

/-! ## Concrete instances used by witnesses and counterexamples -/

/-- Classifier reporting no function as core. -/
def clsNone : String → Bool := fun _ => false

/-- Classifier reporting exactly `"B"` as core. -/
def clsB : String → Bool := fun s => s == "B"

/-- Classifier reporting exactly `"q"` as core. -/
def clsQ : String → Bool := fun s => s == "q"

/-- Classifier reporting exactly `"work"` as core. -/
def clsW : String → Bool := fun s => s == "work"

/-- A well-formed two-function profile: sample 1 is the stack
`main → work` (leaf-first location ids `[2, 1]`) with value 30, sample 2
is a single-frame `main` stack with value 10. -/
def pW : Profile :=
  { stringTable := ["", "cpu", "main", "work", "m.go", "w.go"]
    sampleType := [⟨1, 0⟩]
    function := [⟨1, 2, 4⟩, ⟨2, 3, 5⟩]
    location := [⟨1, [⟨1⟩]⟩, ⟨2, [⟨2⟩]⟩]
    sample := [⟨[2, 1], [30]⟩, ⟨[1], [10]⟩] }

/-- The mapping `pW` analyzes to with attribution disabled. -/
def mW : NodeMap := (AnalyzeCPUProfile (some pW) false clsW).toOption.getD []

/-- The mapping `pW` analyzes to with attribution enabled. -/
def mWattr : NodeMap := (AnalyzeCPUProfile (some pW) true clsW).toOption.getD []

/-- The function-info map of `pW`. -/
def fimW : List (Nat × FunctionInfo) := (buildFunctionInfoMap pW).toOption.getD []

/-- A profile with a negative sample value: sample 1 is a single-frame
`A` stack with value 200, sample 2 is the stack `A → B` (leaf-first ids
`[2, 1]`) with value -100. -/
def pNeg : Profile :=
  { stringTable := ["", "cpu", "A", "B", "fa", "fb"]
    sampleType := [⟨1, 0⟩]
    function := [⟨1, 2, 4⟩, ⟨2, 3, 5⟩]
    location := [⟨1, [⟨1⟩]⟩, ⟨2, [⟨2⟩]⟩]
    sample := [⟨[1], [200]⟩, ⟨[2, 1], [-100]⟩] }

/-- A profile whose two samples carry values 200 and -100 on the same
single-frame stack. -/
def p4neg : Profile :=
  { stringTable := ["", "cpu", "X", "x.go"]
    sampleType := [⟨1, 0⟩]
    function := [⟨1, 2, 3⟩]
    location := [⟨1, [⟨1⟩]⟩]
    sample := [⟨[1], [200]⟩, ⟨[1], [-100]⟩] }

/-- A profile whose sample-type labels are all non-CPU and whose single
`Function` entry carries the negative name index -1 (which passes the Go
guard `fn.Name < int64(len(p.StringTable))`). -/
def p5bad : Profile :=
  { stringTable := ["", "memory", "bytes"]
    sampleType := [⟨1, 2⟩]
    function := [⟨1, -1, 0⟩]
    location := []
    sample := [] }

/-- A CPU profile whose single `Function` entry has the negative name
index -2. -/
def p7bad : Profile :=
  { stringTable := ["", "cpu", "main"]
    sampleType := [⟨1, 0⟩]
    function := [⟨7, -2, 0⟩]
    location := [⟨1, [⟨7⟩]⟩]
    sample := [⟨[1], [100]⟩] }

/-- `p7bad` with the name index 99 instead: out of range from above, so
the function entry is skipped and the frame is dropped. -/
def p7dropped : Profile :=
  { stringTable := ["", "cpu", "main"]
    sampleType := [⟨1, 0⟩]
    function := [⟨7, 99, 0⟩]
    location := [⟨1, [⟨7⟩]⟩]
    sample := [⟨[1], [100]⟩] }

/-- The mapping `pNeg` analyzes to with attribution enabled and `"B"`
classified as core. -/
def c2M : NodeMap := (AnalyzeCPUProfile (some pNeg) true clsB).toOption.getD []

/-- The resolved stack of `pNeg`'s first sample. -/
def c2s1 : List Stack := [⟨"A", "fa"⟩]

/-- The resolved stack of `pNeg`'s second sample. -/
def c2s2 : List Stack := [⟨"A", "fa"⟩, ⟨"B", "fb"⟩]

/-- `cpuTime` of `pNeg`'s first sample. -/
def c2c1 : ℚ := ((200 : Int) : ℚ) / ((100 : Int) : ℚ) * 100

/-- `cpuTime` of `pNeg`'s second sample. -/
def c2c2 : ℚ := ((-100 : Int) : ℚ) / ((100 : Int) : ℚ) * 100

/-- A root-first stack in which the name `"A"` occurs at the root (file
`f1`) and at the leaf (file `f2`). -/
def c8stack : List Stack := [⟨"A", "f1"⟩, ⟨"B", "g"⟩, ⟨"A", "f2"⟩]

/-- A two-frame root-first stack `p → q`. -/
def c1stack : List Stack := [⟨"p", "f"⟩, ⟨"q", "g"⟩]

/-- `SelfCPU ≤ SelfAttrCPU` for every stored node. -/
def invLeSelf (m : NodeMap) : Prop := ∀ pr ∈ m, pr.2.selfCPU ≤ pr.2.selfAttrCPU

/-- `SelfAttrCPU = SelfCPU` for every stored node. -/
def invEqSelf (m : NodeMap) : Prop := ∀ pr ∈ m, pr.2.selfAttrCPU = pr.2.selfCPU

/-- `SelfCPU ≤ TotalCPU` for every stored node. -/
def invSelfTot (m : NodeMap) : Prop := ∀ pr ∈ m, pr.2.selfCPU ≤ pr.2.totalCPU

/-- Every stored child reference is a non-nil pointer to the node of the
child's key, and that key is present in the mapping. -/
def invChildren (m : NodeMap) : Prop :=
  ∀ pr ∈ m, ∀ ch ∈ pr.2.children, ch.2 = some ch.1 ∧ (alookup m ch.1).isSome = true

/-! ## Association-list lemmas -/

theorem alookup_aupdate {κ β : Type} [DecidableEq κ] (m : List (κ × β)) (k k' : κ) (v : β) :
    alookup (aupdate m k v) k' = if k = k' then some v else alookup m k' := by
  induction m with
  | nil => simp [alookup, aupdate]
  | cons hd tl ih =>
    obtain ⟨k0, v0⟩ := hd
    by_cases h0 : k0 = k
    · subst h0
      by_cases h1 : k0 = k'
      · subst h1; simp [alookup, aupdate]
      · simp [alookup, aupdate, h1]
    · by_cases h1 : k0 = k'
      · subst h1
        simp [alookup, aupdate, h0]
        rw [if_neg (fun h => h0 h.symm)]
      · simp [alookup, aupdate, h0, h1]
        exact ih

theorem alookup_mem {κ β : Type} [DecidableEq κ] {m : List (κ × β)} {k : κ} {v : β}
    (h : alookup m k = some v) : (k, v) ∈ m := by
  induction m with
  | nil => simp [alookup] at h
  | cons hd tl ih =>
    obtain ⟨k0, v0⟩ := hd
    by_cases h0 : k0 = k
    · subst h0
      simp [alookup] at h
      simp [h]
    · simp [alookup, h0] at h
      exact List.mem_cons_of_mem _ (ih h)

theorem mem_aupdate {κ β : Type} [DecidableEq κ] {m : List (κ × β)} {k : κ} {v : β}
    {pr : κ × β} (h : pr ∈ aupdate m k v) : pr = (k, v) ∨ pr ∈ m := by
  induction m with
  | nil => simpa [aupdate] using h
  | cons hd tl ih =>
    obtain ⟨k0, v0⟩ := hd
    by_cases h0 : k0 = k
    · subst h0
      simp [aupdate] at h
      rcases h with h | h
      · left; simp [h]
      · right; exact List.mem_cons_of_mem _ h
    · simp [aupdate, h0] at h
      rcases h with h | h
      · right; simp [h]
      · rcases ih h with h' | h'
        · left; exact h'
        · right; exact List.mem_cons_of_mem _ h'

theorem alookup_aupdate_isSome_mono {κ β : Type} [DecidableEq κ]
    {m : List (κ × β)} {k' : κ} (k : κ) (v : β)
    (h : (alookup m k').isSome = true) : (alookup (aupdate m k v) k').isSome = true := by
  rw [alookup_aupdate]
  by_cases hk : k = k' <;> simp [hk, h]

theorem optOr_none {α : Type} (a : Option α) : optOr a none = a := by
  cases a <;> rfl

theorem optOr_assoc {α : Type} (a b c : Option α) :
    optOr (optOr a b) c = optOr a (optOr b c) := by
  cases a <;> rfl

theorem ffind_append (a b : List Stack) (name : String) :
    ffind (a ++ b) name = optOr (ffind a name) (ffind b name) := by
  unfold ffind
  rw [List.find?_append]
  cases h : a.find? (fun s => s.name == name) <;> simp [optOr, Option.orElse, h]

theorem alookup_aupdate_isSome {κ β : Type} [DecidableEq κ] (m : List (κ × β)) (k k' : κ) (v : β) :
    (alookup (aupdate m k v) k').isSome = (decide (k = k') || (alookup m k').isSome) := by
  rw [alookup_aupdate]
  by_cases h : k = k' <;> simp [h]

/-! ## Effect of one loop iteration of `updateFunctionNodes` -/

theorem bodyNode_totalCPU (m : NodeMap) (stack : List Stack) (c : ℚ) (attr : Bool)
    (fn : String → Bool) (i : Nat) (entry : Stack) :
    (bodyNode m stack c attr fn i entry).totalCPU =
      ((alookup m entry.name).getD (emptyNode entry)).totalCPU + c := by
  unfold bodyNode
  dsimp only
  repeat' split
  all_goals rfl

theorem bodyNode_parentCount (m : NodeMap) (stack : List Stack) (c : ℚ) (attr : Bool)
    (fn : String → Bool) (i : Nat) (entry : Stack) :
    (bodyNode m stack c attr fn i entry).parentCount =
      ((alookup m entry.name).getD (emptyNode entry)).parentCount + 1 := by
  unfold bodyNode
  dsimp only
  repeat' split
  all_goals rfl

theorem bodyNode_fileName (m : NodeMap) (stack : List Stack) (c : ℚ) (attr : Bool)
    (fn : String → Bool) (i : Nat) (entry : Stack) :
    (bodyNode m stack c attr fn i entry).fileName =
      ((alookup m entry.name).getD (emptyNode entry)).fileName := by
  unfold bodyNode
  dsimp only
  repeat' split
  all_goals rfl

theorem bodyNode_selfCPU (m : NodeMap) (stack : List Stack) (c : ℚ) (attr : Bool)
    (fn : String → Bool) (i : Nat) (entry : Stack) :
    (bodyNode m stack c attr fn i entry).selfCPU =
      ((alookup m entry.name).getD (emptyNode entry)).selfCPU +
        (if i + 1 = stack.length then c else 0) := by
  unfold bodyNode
  dsimp only
  repeat' split
  all_goals simp

theorem bodyNode_selfAttrCPU (m : NodeMap) (stack : List Stack) (c : ℚ) (attr : Bool)
    (fn : String → Bool) (i : Nat) (entry : Stack) :
    (bodyNode m stack c attr fn i entry).selfAttrCPU =
      ((alookup m entry.name).getD (emptyNode entry)).selfAttrCPU +
        (if i + 1 = stack.length then c else 0) +
        (if attrHit stack attr fn i = true then c else 0) := by
  unfold bodyNode attrHit
  dsimp only
  repeat' split
  all_goals simp_all

theorem bodyNode_children_mem (m : NodeMap) (stack : List Stack) (c : ℚ) (attr : Bool)
    (fn : String → Bool) (i : Nat) (entry : Stack) :
    ∀ ch ∈ (bodyNode m stack c attr fn i entry).children,
      ch ∈ ((alookup m entry.name).getD (emptyNode entry)).children ∨
        ∃ child, stack[i + 1]? = some child ∧ ch.1 = child.name ∧
          ((alookup m child.name).isSome = true → ch.2 = some child.name) := by
  unfold bodyNode
  dsimp only
  simp only [alookup_aupdate_isSome]
  repeat' split
  all_goals intro ch hch
  all_goals simp_all
  all_goals rcases hch with hch | rfl
  all_goals simp_all

theorem updateAt_none (m : NodeMap) (stack : List Stack) (c : ℚ) (attr : Bool)
    (fn : String → Bool) (i : Nat) (h : stack[i]? = none) :
    updateAt m stack c attr fn i = m := by
  unfold updateAt
  rw [h]

theorem updateAt_lookup_some {stack : List Stack} {i : Nat} {entry : Stack}
    (m : NodeMap) (c : ℚ) (attr : Bool) (fn : String → Bool) (name : String)
    (h : stack[i]? = some entry) :
    alookup (updateAt m stack c attr fn i) name =
      if entry.name = name then some (bodyNode m stack c attr fn i entry)
      else alookup m name := by
  unfold updateAt
  rw [h]
  exact alookup_aupdate m entry.name name _

theorem updateAt_totalF (m : NodeMap) (stack : List Stack) (c : ℚ) (attr : Bool)
    (fn : String → Bool) (i : Nat) (name : String) :
    totalF (updateAt m stack c attr fn i) name =
      totalF m name + (if (stack[i]?).map Stack.name = some name then c else 0) := by
  cases h : stack[i]? with
  | none => rw [updateAt_none m stack c attr fn i h]; simp
  | some entry =>
    unfold totalF
    rw [updateAt_lookup_some m c attr fn name h]
    by_cases he : entry.name = name
    · subst he
      cases hm : alookup m entry.name <;>
        simp [hm, bodyNode_totalCPU, emptyNode]
    · simp only [he, if_false]
      rw [if_neg (by simp [he])]
      ring_nf

theorem updateAt_parentF (m : NodeMap) (stack : List Stack) (c : ℚ) (attr : Bool)
    (fn : String → Bool) (i : Nat) (name : String) :
    parentF (updateAt m stack c attr fn i) name =
      parentF m name + (if (stack[i]?).map Stack.name = some name then 1 else 0) := by
  cases h : stack[i]? with
  | none => rw [updateAt_none m stack c attr fn i h]; simp
  | some entry =>
    unfold parentF
    rw [updateAt_lookup_some m c attr fn name h]
    by_cases he : entry.name = name
    · subst he
      cases hm : alookup m entry.name <;>
        simp [hm, bodyNode_parentCount, emptyNode]
    · rw [if_neg he, if_neg (by intro hx; simp at hx; exact he hx)]
      simp

theorem updateAt_selfF (m : NodeMap) (stack : List Stack) (c : ℚ) (attr : Bool)
    (fn : String → Bool) (i : Nat) (name : String) :
    selfF (updateAt m stack c attr fn i) name =
      selfF m name +
        (if i + 1 = stack.length ∧ (stack[i]?).map Stack.name = some name then c else 0) := by
  cases h : stack[i]? with
  | none => rw [updateAt_none m stack c attr fn i h]; simp
  | some entry =>
    unfold selfF
    rw [updateAt_lookup_some m c attr fn name h]
    by_cases he : entry.name = name
    · subst he
      rw [if_pos rfl]
      by_cases hlen : i + 1 = stack.length
      · rw [if_pos ⟨hlen, rfl⟩]
        simp only [Option.map_some', Option.getD_some, bodyNode_selfCPU, if_pos hlen]
        cases hm : alookup m entry.name <;> simp [hm, emptyNode]
      · rw [if_neg (by rintro ⟨hl, -⟩; exact hlen hl)]
        simp only [Option.map_some', Option.getD_some, bodyNode_selfCPU, if_neg hlen]
        cases hm : alookup m entry.name <;> simp [hm, emptyNode]
    · rw [if_neg he, if_neg (by rintro ⟨-, hx⟩; simp at hx; exact he hx)]
      simp

theorem updateAt_attrF (m : NodeMap) (stack : List Stack) (c : ℚ) (attr : Bool)
    (fn : String → Bool) (i : Nat) (name : String) :
    attrF (updateAt m stack c attr fn i) name =
      attrF m name +
        (if i + 1 = stack.length ∧ (stack[i]?).map Stack.name = some name then c else 0) +
        (if attrHit stack attr fn i = true ∧ (stack[i]?).map Stack.name = some name then c
         else 0) := by
  cases h : stack[i]? with
  | none => rw [updateAt_none m stack c attr fn i h]; simp
  | some entry =>
    unfold attrF
    rw [updateAt_lookup_some m c attr fn name h]
    by_cases he : entry.name = name
    · subst he
      rw [if_pos rfl]
      by_cases hlen : i + 1 = stack.length
      · rw [if_pos ⟨hlen, rfl⟩]
        by_cases hhit : attrHit stack attr fn i = true
        · rw [if_pos ⟨hhit, rfl⟩]
          simp only [Option.map_some', Option.getD_some, bodyNode_selfAttrCPU,
            if_pos hlen, if_pos hhit]
          cases hm : alookup m entry.name <;> simp [hm, emptyNode]
        · rw [if_neg (by rintro ⟨hl, -⟩; exact hhit hl)]
          simp only [Option.map_some', Option.getD_some, bodyNode_selfAttrCPU,
            if_pos hlen, if_neg hhit]
          cases hm : alookup m entry.name <;> simp [hm, emptyNode]
      · rw [if_neg (by rintro ⟨hl, -⟩; exact hlen hl)]
        by_cases hhit : attrHit stack attr fn i = true
        · rw [if_pos ⟨hhit, rfl⟩]
          simp only [Option.map_some', Option.getD_some, bodyNode_selfAttrCPU,
            if_neg hlen, if_pos hhit]
          cases hm : alookup m entry.name <;> simp [hm, emptyNode]
        · rw [if_neg (by rintro ⟨hl, -⟩; exact hhit hl)]
          simp only [Option.map_some', Option.getD_some, bodyNode_selfAttrCPU,
            if_neg hlen, if_neg hhit]
          cases hm : alookup m entry.name <;> simp [hm, emptyNode]
    · rw [if_neg he, if_neg (by rintro ⟨-, hx⟩; simp at hx; exact he hx),
        if_neg (by rintro ⟨-, hx⟩; simp at hx; exact he hx)]
      simp

theorem updateAt_fileF (m : NodeMap) (stack : List Stack) (c : ℚ) (attr : Bool)
    (fn : String → Bool) (i : Nat) (name : String) :
    fileF (updateAt m stack c attr fn i) name =
      optOr (fileF m name)
        (if (stack[i]?).map Stack.name = some name then (stack[i]?).map Stack.fileName
         else none) := by
  cases h : stack[i]? with
  | none => rw [updateAt_none m stack c attr fn i h]; simp [optOr_none]
  | some entry =>
    unfold fileF
    rw [updateAt_lookup_some m c attr fn name h]
    by_cases he : entry.name = name
    · subst he
      rw [if_pos rfl,
        if_pos (show Option.map Stack.name (some entry) = some entry.name from rfl)]
      simp only [Option.map_some', bodyNode_fileName]
      cases hm : alookup m entry.name <;> simp [hm, emptyNode, optOr]
    · rw [if_neg he, if_neg (by intro hx; simp at hx; exact he hx), optOr_none]

theorem updateAt_isSome_mono (m : NodeMap) (stack : List Stack) (c : ℚ) (attr : Bool)
    (fn : String → Bool) (i : Nat) (name : String)
    (h : (alookup m name).isSome = true) :
    (alookup (updateAt m stack c attr fn i) name).isSome = true := by
  cases hx : stack[i]? with
  | none => rw [updateAt_none m stack c attr fn i hx]; exact h
  | some entry =>
    rw [updateAt_lookup_some m c attr fn name hx]
    by_cases he : entry.name = name <;> simp [he, h]

theorem updateAt_self_isSome (m : NodeMap) (stack : List Stack) (c : ℚ) (attr : Bool)
    (fn : String → Bool) {i : Nat} {entry : Stack} (h : stack[i]? = some entry) :
    (alookup (updateAt m stack c attr fn i) entry.name).isSome = true := by
  rw [updateAt_lookup_some m c attr fn entry.name h]
  simp

theorem mem_updateAt {m : NodeMap} {stack : List Stack} {c : ℚ} {attr : Bool}
    {fn : String → Bool} {i : Nat} {pr : String × FunctionNode}
    (h : pr ∈ updateAt m stack c attr fn i) :
    pr ∈ m ∨ ∃ entry, stack[i]? = some entry ∧
      pr = (entry.name, bodyNode m stack c attr fn i entry) := by
  unfold updateAt at h
  cases hx : stack[i]? with
  | none => rw [hx] at h; exact Or.inl h
  | some entry =>
    rw [hx] at h
    rcases mem_aupdate h with h' | h'
    · exact Or.inr ⟨entry, rfl, h'⟩
    · exact Or.inl h'

/-! ## Composing the loop iterations -/

/-- If one loop iteration at index `i` adds `d i` to an additive view `g`
of the node map, the whole loop adds the sum of `d` over the processed
indices. -/
theorem updGo_delta {M : Type} [AddCommMonoid M] (stack : List Stack) (c : ℚ)
    (attr : Bool) (fn : String → Bool) (g : NodeMap → M) (d : Nat → M)
    (hstep : ∀ m i, g (updateAt m stack c attr fn i) = g m + d i) :
    ∀ j m, g (updGo stack c attr fn j m) = g m + ((List.range j).map d).sum := by
  intro j
  induction j with
  | zero => intro m; simp [updGo]
  | succ j ih =>
    intro m
    show g (updGo stack c attr fn j (updateAt m stack c attr fn j)) = _
    rw [ih, hstep, List.range_succ, List.map_append, List.sum_append]
    simp only [List.map_cons, List.map_nil, List.sum_cons, List.sum_nil, add_zero]
    rw [add_assoc, add_comm (d j)]

/-- A sum over `range j` of a function supported on at most the single
index `i0` collapses to one conditional term. -/
theorem range_sum_single {M : Type} [AddCommMonoid M] (d : Nat → M) (i0 : Nat)
    (hd : ∀ i, d i ≠ 0 → i = i0) (j : Nat) :
    ((List.range j).map d).sum = if i0 < j then d i0 else 0 := by
  induction j with
  | zero => simp
  | succ j ih =>
    rw [List.range_succ, List.map_append, List.sum_append]
    simp only [List.map_cons, List.map_nil, List.sum_cons, List.sum_nil, add_zero]
    by_cases hj : i0 < j
    · have hdj : d j = 0 := by
        by_contra hne
        have := hd j hne
        omega
      rw [ih, if_pos hj, if_pos (by omega), hdj, add_zero]
    · by_cases hj2 : i0 = j
      · subst hj2
        rw [ih, if_neg hj, if_pos (by omega), zero_add]
      · have hdj : d j = 0 := by
          by_contra hne
          have := hd j hne
          omega
        rw [ih, if_neg hj, if_neg (by omega), hdj, add_zero]

theorem countName_take_succ (stack : List Stack) (name : String) (j : Nat) :
    countName (stack.take (j + 1)) name =
      countName (stack.take j) name +
        (if (stack[j]?).map Stack.name = some name then 1 else 0) := by
  rw [List.take_succ]
  unfold countName
  rw [List.filter_append, List.length_append]
  congr 1
  cases h : stack[j]? with
  | none => simp
  | some x =>
    by_cases hx : x.name = name <;> simp [hx]

theorem range_sum_count_q (stack : List Stack) (name : String) (c : ℚ) (j : Nat) :
    ((List.range j).map
      (fun i => if (stack[i]?).map Stack.name = some name then c else 0)).sum =
      (countName (stack.take j) name : ℚ) * c := by
  induction j with
  | zero => simp [countName]
  | succ j ih =>
    rw [List.range_succ, List.map_append, List.sum_append]
    simp only [List.map_cons, List.map_nil, List.sum_cons, List.sum_nil, add_zero]
    rw [ih, countName_take_succ]
    by_cases hc : (stack[j]?).map Stack.name = some name
    · simp only [hc, if_pos, Nat.cast_add, Nat.cast_one, if_true]
      ring
    · simp [hc]

theorem range_sum_count_n (stack : List Stack) (name : String) (j : Nat) :
    ((List.range j).map
      (fun i => if (stack[i]?).map Stack.name = some name then 1 else 0)).sum =
      countName (stack.take j) name := by
  induction j with
  | zero => simp [countName]
  | succ j ih =>
    rw [List.range_succ, List.map_append, List.sum_append]
    simp only [List.map_cons, List.map_nil, List.sum_cons, List.sum_nil, add_zero]
    rw [ih, countName_take_succ]

/-- C1: for a root-first stack of length `n ≥ 2`, processing the stack
changes the gap `SelfAttrCPU - SelfCPU` of a node if and only if the node
is the one named `stack[n-2].Name` (the immediate parent of the leaf),
attribution is enabled, and the classifier reports the leaf function
`stack[n-1].Name` as core — in which case the gap grows by exactly
`cpuTime`, i.e. that node's `SelfAttrCPU` gains `cpuTime` in addition to
any `SelfCPU` increment; the second conjunct pins the `SelfCPU` increment
to the leaf's node alone.  When attribution is disabled or the leaf is not
core-classified, no node's gap changes. -/
theorem c1_parent_attribution (m : NodeMap) (stack : List Stack) (c : ℚ)
    (attrCPU : Bool) (fn : String → Bool) (name : String) (h2 : 2 ≤ stack.length) :
    (attrF (updateFunctionNodes m stack c attrCPU fn) name -
        selfF (updateFunctionNodes m stack c attrCPU fn) name
      = (attrF m name - selfF m name) +
          (if attrCPU = true ∧ fn (leafName stack) = true ∧ name = parentName stack
           then c else 0)) ∧
    selfF (updateFunctionNodes m stack c attrCPU fn) name
      = selfF m name + (if name = leafName stack then c else 0) := by
  have hl1 : stack.length - 1 < stack.length := by omega
  have hl2 : stack.length - 2 < stack.length := by omega
  have e1 : stack[stack.length - 1]? = some (stack.get ⟨stack.length - 1, hl1⟩) := by
    rw [List.getElem?_eq_getElem hl1, List.get_eq_getElem]
  have e2 : stack[stack.length - 2]? = some (stack.get ⟨stack.length - 2, hl2⟩) := by
    rw [List.getElem?_eq_getElem hl2, List.get_eq_getElem]
  have hleaf : leafName stack = (stack.get ⟨stack.length - 1, hl1⟩).name := by
    unfold leafName
    rw [e1]
    rfl
  have hpar : parentName stack = (stack.get ⟨stack.length - 2, hl2⟩).name := by
    unfold parentName
    rw [e2]
    rfl
  constructor
  · have hgap := updGo_delta stack c attrCPU fn
      (fun mm => attrF mm name - selfF mm name)
      (fun i => if attrHit stack attrCPU fn i = true ∧
          (stack[i]?).map Stack.name = some name then c else 0)
      (fun mm i => by
        dsimp only
        rw [updateAt_attrF mm stack c attrCPU fn i name,
          updateAt_selfF mm stack c attrCPU fn i name]
        ring) stack.length m
    rw [updateFunctionNodes, hgap]
    rw [range_sum_single _ (stack.length - 2)
      (by
        intro i hne
        by_cases hc : attrHit stack attrCPU fn i = true ∧
            (stack[i]?).map Stack.name = some name
        · have h1 := hc.1
          unfold attrHit at h1
          have h12 := (Bool.and_eq_true _ _).mp h1
          have h13 : i + 2 = stack.length := by
            have := h12.1
            rwa [beq_iff_eq] at this
          omega
        · rw [if_neg hc] at hne
          exact absurd rfl hne)]
    rw [if_pos (by omega)]
    have hhit : attrHit stack attrCPU fn (stack.length - 2) =
        (attrCPU && fn (leafName stack)) := by
      unfold attrHit
      have hidx : stack.length - 2 + 1 = stack.length - 1 := by omega
      rw [hidx, e1, hleaf]
      have hb : (stack.length - 2 + 2 == stack.length) = true := by
        rw [beq_iff_eq]
        omega
      rw [hb, Bool.true_and]
    have hiff : (attrHit stack attrCPU fn (stack.length - 2) = true ∧
        (stack[stack.length - 2]?).map Stack.name = some name) ↔
        (attrCPU = true ∧ fn (leafName stack) = true ∧ name = parentName stack) := by
      rw [hhit, e2, hpar, Bool.and_eq_true]
      simp only [Option.map_some', Option.some.injEq]
      constructor
      · rintro ⟨⟨ha, hf⟩, hx⟩
        exact ⟨ha, hf, hx.symm⟩
      · rintro ⟨ha, hf, hx⟩
        exact ⟨⟨ha, hf⟩, hx.symm⟩
    rw [if_congr hiff rfl rfl]
  · have hself := updGo_delta stack c attrCPU fn (fun mm => selfF mm name)
      (fun i => if i + 1 = stack.length ∧
          (stack[i]?).map Stack.name = some name then c else 0)
      (fun mm i => updateAt_selfF mm stack c attrCPU fn i name) stack.length m
    rw [updateFunctionNodes, hself]
    rw [range_sum_single _ (stack.length - 1)
      (by
        intro i hne
        by_cases hc : i + 1 = stack.length ∧ (stack[i]?).map Stack.name = some name
        · have := hc.1
          omega
        · rw [if_neg hc] at hne
          exact absurd rfl hne)]
    rw [if_pos (by omega)]
    have hiff : ((stack.length - 1) + 1 = stack.length ∧
        (stack[stack.length - 1]?).map Stack.name = some name) ↔
        name = leafName stack := by
      rw [e1, hleaf]
      simp only [Option.map_some', Option.some.injEq]
      constructor
      · rintro ⟨-, hx⟩
        exact hx.symm
      · intro hx
        exact ⟨by omega, hx.symm⟩
    rw [if_congr hiff rfl rfl]

theorem list_sum_map_add {M : Type} [AddCommMonoid M] (l : List Nat) (f g : Nat → M) :
    (l.map (fun i => f i + g i)).sum = (l.map f).sum + (l.map g).sum := by
  induction l with
  | nil => simp
  | cons a rest ih =>
    simp only [List.map_cons, List.sum_cons, ih]
    rw [add_add_add_comm]

/-- `SelfCPU` gains `c` exactly at the leaf's node. -/
theorem updateFunctionNodes_selfF (m : NodeMap) (stack : List Stack) (c : ℚ)
    (attr : Bool) (fn : String → Bool) (name : String) :
    selfF (updateFunctionNodes m stack c attr fn) name =
      selfF m name +
        (if (stack[stack.length - 1]?).map Stack.name = some name then c else 0) := by
  have h := updGo_delta stack c attr fn (fun mm => selfF mm name)
    (fun i => if i + 1 = stack.length ∧ (stack[i]?).map Stack.name = some name then c
      else 0)
    (fun mm i => updateAt_selfF mm stack c attr fn i name) stack.length m
  rw [updateFunctionNodes, h, range_sum_single _ (stack.length - 1)
    (by
      intro i hne
      by_cases hcnd : i + 1 = stack.length ∧ (stack[i]?).map Stack.name = some name
      · have := hcnd.1
        omega
      · rw [if_neg hcnd] at hne
        exact absurd rfl hne)]
  rcases Nat.eq_zero_or_pos stack.length with h0 | h0
  · rw [if_neg (by omega)]
    rw [List.getElem?_eq_none (by omega)]
    simp
  · rw [if_pos (by omega)]
    rw [if_congr (and_iff_right (by omega)) rfl rfl]

/-- `SelfAttrCPU` gains `c` at the leaf's node and, when the
parent-attribution rule fires, an additional `c` at the node of
`stack[n-2].Name`. -/
theorem updateFunctionNodes_attrF (m : NodeMap) (stack : List Stack) (c : ℚ)
    (attr : Bool) (fn : String → Bool) (name : String) :
    attrF (updateFunctionNodes m stack c attr fn) name =
      attrF m name +
        (if (stack[stack.length - 1]?).map Stack.name = some name then c else 0) +
        (if attrHit stack attr fn (stack.length - 2) = true ∧
            (stack[stack.length - 2]?).map Stack.name = some name then c else 0) := by
  have h := updGo_delta stack c attr fn (fun mm => attrF mm name)
    (fun i =>
      (if i + 1 = stack.length ∧ (stack[i]?).map Stack.name = some name then c else 0) +
      (if attrHit stack attr fn i = true ∧ (stack[i]?).map Stack.name = some name then c
       else 0))
    (fun mm i => by
      dsimp only
      rw [updateAt_attrF mm stack c attr fn i name]
      ring) stack.length m
  rw [updateFunctionNodes, h, list_sum_map_add]
  rw [range_sum_single _ (stack.length - 1)
    (by
      intro i hne
      by_cases hcnd : i + 1 = stack.length ∧ (stack[i]?).map Stack.name = some name
      · have := hcnd.1
        omega
      · rw [if_neg hcnd] at hne
        exact absurd rfl hne)]
  rw [range_sum_single _ (stack.length - 2)
    (by
      intro i hne
      by_cases hcnd : attrHit stack attr fn i = true ∧
          (stack[i]?).map Stack.name = some name
      · have h1 := hcnd.1
        unfold attrHit at h1
        have h12 := (Bool.and_eq_true _ _).mp h1
        have h13 : i + 2 = stack.length := by
          have := h12.1
          rwa [beq_iff_eq] at this
        omega
      · rw [if_neg hcnd] at hne
        exact absurd rfl hne)]
  rcases Nat.eq_zero_or_pos stack.length with h0 | h0
  · rw [if_neg (show ¬(stack.length - 1 < stack.length) by omega),
      if_neg (show ¬(stack.length - 2 < stack.length) by omega)]
    rw [List.getElem?_eq_none (by omega)]
    have hno : attrHit stack attr fn (stack.length - 2) = false := by
      unfold attrHit
      rw [show ((stack.length - 2 + 2 == stack.length)) = false by
        rw [Bool.eq_false_iff, ne_eq, beq_iff_eq]; omega]
      rw [Bool.false_and]
    rw [hno]
    simp
  · rw [if_pos (show stack.length - 1 < stack.length by omega),
      if_pos (show stack.length - 2 < stack.length by omega)]
    rw [if_congr (and_iff_right (by omega)) rfl rfl, ← add_assoc]

/-- C3: processing one resolved stack adds `k * w` to the function's
`TotalCPU` and `k` to its `ParentCount`, where `k` is the number of
occurrences of the function name in the stack — each occurrence counts
independently, with no per-sample deduplication. -/
theorem c3_recursion_accounting (m : NodeMap) (stack : List Stack) (c : ℚ)
    (attr : Bool) (fn : String → Bool) (name : String) :
    totalF (updateFunctionNodes m stack c attr fn) name
        = totalF m name + (countName stack name : ℚ) * c ∧
      parentF (updateFunctionNodes m stack c attr fn) name
        = parentF m name + countName stack name := by
  constructor
  · have h := updGo_delta stack c attr fn (fun mm => totalF mm name)
      (fun i => if (stack[i]?).map Stack.name = some name then c else 0)
      (fun mm i => updateAt_totalF mm stack c attr fn i name) stack.length m
    rw [updateFunctionNodes, h, range_sum_count_q, List.take_length]
  · have h := updGo_delta stack c attr fn (fun mm => parentF mm name)
      (fun i => if (stack[i]?).map Stack.name = some name then 1 else 0)
      (fun mm i => updateAt_parentF mm stack c attr fn i name) stack.length m
    rw [updateFunctionNodes, h, range_sum_count_n, List.take_length]

theorem updGo_fileF (stack : List Stack) (c : ℚ) (attr : Bool) (fn : String → Bool)
    (name : String) :
    ∀ j m, fileF (updGo stack c attr fn j m) name =
      optOr (fileF m name) (ffind (stack.take j).reverse name) := by
  intro j
  induction j with
  | zero => intro m; simp [updGo, ffind, optOr_none]
  | succ j ih =>
    intro m
    show fileF (updGo stack c attr fn j (updateAt m stack c attr fn j)) name = _
    rw [ih, updateAt_fileF, optOr_assoc]
    congr 1
    rw [List.take_succ]
    cases h : stack[j]? with
    | none => simp [ffind, optOr]
    | some x =>
      rw [show ((stack.take j ++ (some x).toList).reverse) =
          x :: (stack.take j).reverse by simp]
      by_cases hx : x.name = name
      · rw [if_pos (by simp [hx])]
        simp [ffind, List.find?_cons, hx, optOr]
      · rw [if_neg (by simp [hx])]
        simp [ffind, List.find?_cons, hx, optOr]

theorem updateFunctionNodes_fileF (m : NodeMap) (stack : List Stack) (c : ℚ)
    (attr : Bool) (fn : String → Bool) (name : String) :
    fileF (updateFunctionNodes m stack c attr fn) name =
      optOr (fileF m name) (ffind stack.reverse name) := by
  rw [updateFunctionNodes, updGo_fileF, List.take_length]

theorem sampleStep_fileF (p : Profile) (fim : List (Nat × FunctionInfo)) (cpuIdx : Nat)
    (total : Int) (attr : Bool) (fn : String → Bool) (m : NodeMap) (s : Sample)
    (name : String) :
    fileF (sampleStep p fim cpuIdx total attr fn m s) name =
      optOr (fileF m name)
        (match s.value[cpuIdx]? with
         | none => none
         | some _ => ffind (resolveStack p fim s.locationId).reverse name) := by
  unfold sampleStep
  cases h : s.value[cpuIdx]? with
  | none => simp [optOr_none]
  | some v =>
    dsimp only
    by_cases hs : 0 < (resolveStack p fim s.locationId).length
    · rw [if_pos hs, updateFunctionNodes_fileF]
    · rw [if_neg hs]
      have hnil : resolveStack p fim s.locationId = [] := by
        cases hr : resolveStack p fim s.locationId with
        | nil => rfl
        | cons a l => rw [hr] at hs; simp at hs
      rw [hnil]
      simp [ffind, optOr_none]

theorem foldl_sampleStep_fileF (p : Profile) (fim : List (Nat × FunctionInfo))
    (cpuIdx : Nat) (total : Int) (attr : Bool) (fn : String → Bool) (name : String) :
    ∀ (l : List Sample) (init : NodeMap),
      fileF (l.foldl (sampleStep p fim cpuIdx total attr fn) init) name =
        optOr (fileF init name) (ffind (encounters p fim cpuIdx l) name) := by
  intro l
  induction l with
  | nil => intro init; simp [encounters, ffind, optOr_none]
  | cons s rest ih =>
    intro init
    rw [List.foldl_cons, ih, sampleStep_fileF, optOr_assoc]
    congr 1
    unfold encounters
    rw [List.filterMap_cons]
    cases h : s.value[cpuIdx]? with
    | none => simp [optOr]
    | some v =>
      simp only [Option.map_some', List.flatten_cons]
      rw [ffind_append]

theorem analyze_ok_elim {p : Profile} {attr : Bool} {fn : String → Bool} {M : NodeMap}
    (h : AnalyzeCPUProfile (some p) attr fn = .ok M) :
    ∃ fim cpuIdx, buildFunctionInfoMap p = .ok fim ∧ findCpuIdx p = .ok (some cpuIdx) ∧
      totalCPUSum p.sample cpuIdx ≠ 0 ∧
      M = p.sample.foldl
        (sampleStep p fim cpuIdx (totalCPUSum p.sample cpuIdx) attr fn) [] := by
  unfold AnalyzeCPUProfile at h
  dsimp only at h
  cases hb : buildFunctionInfoMap p with
  | error e => rw [hb] at h; cases h
  | ok fim =>
    rw [hb] at h
    cases hc : findCpuIdx p with
    | error e => rw [hc] at h; cases h
    | ok idxo =>
      rw [hc] at h
      cases idxo with
      | none => cases h
      | some cpuIdx =>
        dsimp only at h
        by_cases ht : totalCPUSum p.sample cpuIdx = 0
        · rw [if_pos ht] at h; cases h
        · rw [if_neg ht] at h
          refine ⟨fim, cpuIdx, rfl, rfl, ht, ?_⟩
          injection h with h
          exact h.symm

/-! ## Invariant preservation -/

theorem mem_of_getElemOpt {α : Type} {l : List α} {i : Nat} {a : α}
    (h : l[i]? = some a) : a ∈ l := by
  have hi : i < l.length := by
    by_contra hc
    rw [List.getElem?_eq_none (by omega)] at h
    cases h
  rw [List.getElem?_eq_getElem hi] at h
  injection h with h
  rw [show a = l[i] from h.symm]
  exact List.getElem_mem hi

theorem updGo_pres (P : NodeMap → Prop) (stack : List Stack) (c : ℚ) (attr : Bool)
    (fn : String → Bool)
    (hstep : ∀ m i, P m → P (updateAt m stack c attr fn i)) :
    ∀ j m, P m → P (updGo stack c attr fn j m) := by
  intro j
  induction j with
  | zero => intro m hm; exact hm
  | succ j ih => intro m hm; exact ih _ (hstep m j hm)

theorem foldl_pres {α β : Type} (P : α → Prop) (f : α → β → α) :
    ∀ (l : List β) (init : α), P init → (∀ a b, b ∈ l → P a → P (f a b)) →
      P (l.foldl f init) := by
  intro l
  induction l with
  | nil => intro init h _; exact h
  | cons b rest ih =>
    intro init h hstep
    exact ih _ (hstep init b (List.mem_cons_self b rest) h)
      (fun a x hx ha => hstep a x (List.mem_cons_of_mem b hx) ha)

theorem updateAt_invLeSelf {m : NodeMap} {stack : List Stack} {c : ℚ} {attr : Bool}
    {fn : String → Bool} {i : Nat} (hc : 0 ≤ c) (hm : invLeSelf m) :
    invLeSelf (updateAt m stack c attr fn i) := by
  intro pr hpr
  rcases mem_updateAt hpr with hpr | ⟨entry, he, rfl⟩
  · exact hm pr hpr
  · show (bodyNode m stack c attr fn i entry).selfCPU ≤
      (bodyNode m stack c attr fn i entry).selfAttrCPU
    rw [bodyNode_selfCPU, bodyNode_selfAttrCPU]
    have h0 : ((alookup m entry.name).getD (emptyNode entry)).selfCPU ≤
        ((alookup m entry.name).getD (emptyNode entry)).selfAttrCPU := by
      cases hm0 : alookup m entry.name with
      | none => simp [emptyNode]
      | some nd => simpa using hm (entry.name, nd) (alookup_mem hm0)
    have hH : (0 : ℚ) ≤ (if attrHit stack attr fn i = true then c else 0) := by
      split
      · exact hc
      · exact le_refl 0
    linarith

theorem updateAt_invEqSelf {m : NodeMap} {stack : List Stack} {c : ℚ}
    {fn : String → Bool} {i : Nat} (hm : invEqSelf m) :
    invEqSelf (updateAt m stack c false fn i) := by
  intro pr hpr
  rcases mem_updateAt hpr with hpr | ⟨entry, he, rfl⟩
  · exact hm pr hpr
  · show (bodyNode m stack c false fn i entry).selfAttrCPU =
      (bodyNode m stack c false fn i entry).selfCPU
    rw [bodyNode_selfCPU, bodyNode_selfAttrCPU]
    have h0 : ((alookup m entry.name).getD (emptyNode entry)).selfAttrCPU =
        ((alookup m entry.name).getD (emptyNode entry)).selfCPU := by
      cases hm0 : alookup m entry.name with
      | none => simp [emptyNode]
      | some nd => simpa using hm (entry.name, nd) (alookup_mem hm0)
    have hH : attrHit stack false fn i = false := by
      unfold attrHit
      cases stack[i + 1]? <;> simp
    rw [hH]
    simp [h0]

theorem updateAt_invSelfTot {m : NodeMap} {stack : List Stack} {c : ℚ} {attr : Bool}
    {fn : String → Bool} {i : Nat} (hc : 0 ≤ c) (hm : invSelfTot m) :
    invSelfTot (updateAt m stack c attr fn i) := by
  intro pr hpr
  rcases mem_updateAt hpr with hpr | ⟨entry, he, rfl⟩
  · exact hm pr hpr
  · show (bodyNode m stack c attr fn i entry).selfCPU ≤
      (bodyNode m stack c attr fn i entry).totalCPU
    rw [bodyNode_selfCPU, bodyNode_totalCPU]
    have h0 : ((alookup m entry.name).getD (emptyNode entry)).selfCPU ≤
        ((alookup m entry.name).getD (emptyNode entry)).totalCPU := by
      cases hm0 : alookup m entry.name with
      | none => simp [emptyNode]
      | some nd => simpa using hm (entry.name, nd) (alookup_mem hm0)
    have hL : (if i + 1 = stack.length then c else 0) ≤ c := by
      split
      · exact le_refl c
      · exact hc
    linarith

theorem updateAt_invChildren {m : NodeMap} {stack : List Stack} {c : ℚ} {attr : Bool}
    {fn : String → Bool} {i : Nat} (hm : invChildren m)
    (hnext : ∀ e, stack[i + 1]? = some e → (alookup m e.name).isSome = true) :
    invChildren (updateAt m stack c attr fn i) := by
  intro pr hpr ch hch
  rcases mem_updateAt hpr with hpr | ⟨entry, he, rfl⟩
  · obtain ⟨h1, h2⟩ := hm pr hpr ch hch
    exact ⟨h1, updateAt_isSome_mono m stack c attr fn i ch.1 h2⟩
  · rcases bodyNode_children_mem m stack c attr fn i entry ch hch with hch0 | hch0
    · cases hm0 : alookup m entry.name with
      | none =>
        rw [hm0] at hch0
        simp [emptyNode] at hch0
      | some nd =>
        rw [hm0] at hch0
        simp only [Option.getD_some] at hch0
        obtain ⟨h1, h2⟩ := hm (entry.name, nd) (alookup_mem hm0) ch hch0
        exact ⟨h1, updateAt_isSome_mono m stack c attr fn i ch.1 h2⟩
    · obtain ⟨child, hc1, hc2, hc3⟩ := hch0
      have hpres := hnext child hc1
      refine ⟨by rw [hc2, hc3 hpres], ?_⟩
      rw [hc2]
      exact updateAt_isSome_mono m stack c attr fn i child.name hpres

theorem updGo_invChildren (stack : List Stack) (c : ℚ) (attr : Bool)
    (fn : String → Bool) :
    ∀ j m, invChildren m →
      (∀ l e, j ≤ l → stack[l]? = some e → (alookup m e.name).isSome = true) →
      invChildren (updGo stack c attr fn j m) := by
  intro j
  induction j with
  | zero => intro m hm _; exact hm
  | succ j ih =>
    intro m hm hnext
    apply ih
    · exact updateAt_invChildren hm (fun e he => hnext (j + 1) e (by omega) he)
    · intro l e hl he
      by_cases hlj : l = j
      · subst hlj
        exact updateAt_self_isSome m stack c attr fn he
      · exact updateAt_isSome_mono m stack c attr fn j e.name
          (hnext l e (by omega) he)

theorem updateFunctionNodes_invChildren {m : NodeMap} {stack : List Stack} {c : ℚ}
    {attr : Bool} {fn : String → Bool} (hm : invChildren m) :
    invChildren (updateFunctionNodes m stack c attr fn) := by
  rw [updateFunctionNodes]
  apply updGo_invChildren stack c attr fn stack.length m hm
  intro l e hl he
  rw [List.getElem?_eq_none hl] at he
  cases he

theorem sampleStep_invChildren {p : Profile} {fim : List (Nat × FunctionInfo)}
    {cpuIdx : Nat} {total : Int} {attr : Bool} {fn : String → Bool}
    {m : NodeMap} {s : Sample} (hm : invChildren m) :
    invChildren (sampleStep p fim cpuIdx total attr fn m s) := by
  unfold sampleStep
  cases s.value[cpuIdx]? with
  | none => exact hm
  | some v =>
    dsimp only
    split
    · exact updateFunctionNodes_invChildren hm
    · exact hm

/-! ## Sums of sample values -/

theorem totalCPUSum_aux (cpuIdx : Nat) :
    ∀ (samples : List Sample) (init : Int),
      samples.foldl
          (fun acc s => match s.value[cpuIdx]? with | some v => acc + v | none => acc)
          init =
        init + (samples.filterMap (fun s => s.value[cpuIdx]?)).sum := by
  intro samples
  induction samples with
  | nil => intro init; simp
  | cons s rest ih =>
    intro init
    rw [List.foldl_cons, List.filterMap_cons]
    cases h : s.value[cpuIdx]? with
    | none => simp only [h]; rw [ih]
    | some v => simp only [h]; rw [ih, List.sum_cons]; ring

theorem totalCPUSum_eq (samples : List Sample) (cpuIdx : Nat) :
    totalCPUSum samples cpuIdx = (samples.filterMap (fun s => s.value[cpuIdx]?)).sum := by
  unfold totalCPUSum
  rw [totalCPUSum_aux]
  ring

theorem totalCPUSum_nonneg (samples : List Sample) (cpuIdx : Nat)
    (hvals : ∀ s ∈ samples, ∀ v ∈ s.value, 0 ≤ v) :
    0 ≤ totalCPUSum samples cpuIdx := by
  rw [totalCPUSum_eq]
  apply List.sum_nonneg
  intro v hv
  rcases List.mem_filterMap.mp hv with ⟨s, hs, hsv⟩
  exact hvals s hs v (mem_of_getElemOpt hsv)

theorem sampleStep_invLeSelf {p : Profile} {fim : List (Nat × FunctionInfo)}
    {cpuIdx : Nat} {total : Int} {attr : Bool} {fn : String → Bool}
    {m : NodeMap} {s : Sample} (htot : 0 < total) (hvs : ∀ v ∈ s.value, 0 ≤ v)
    (hm : invLeSelf m) : invLeSelf (sampleStep p fim cpuIdx total attr fn m s) := by
  unfold sampleStep
  cases h : s.value[cpuIdx]? with
  | none => exact hm
  | some v =>
    dsimp only
    split
    · have hv : (0 : ℚ) ≤ (v : ℚ) := by
        exact_mod_cast hvs v (mem_of_getElemOpt h)
      have ht : (0 : ℚ) ≤ (total : ℚ) := by exact_mod_cast le_of_lt htot
      have hc : (0 : ℚ) ≤ (v : ℚ) / (total : ℚ) * 100 :=
        mul_nonneg (div_nonneg hv ht) (by norm_num)
      exact updGo_pres invLeSelf _ _ _ _ (fun mm i hmm => updateAt_invLeSelf hc hmm)
        _ _ hm
    · exact hm

theorem sampleStep_invEqSelf {p : Profile} {fim : List (Nat × FunctionInfo)}
    {cpuIdx : Nat} {total : Int} {fn : String → Bool} {m : NodeMap} {s : Sample}
    (hm : invEqSelf m) : invEqSelf (sampleStep p fim cpuIdx total false fn m s) := by
  unfold sampleStep
  cases h : s.value[cpuIdx]? with
  | none => exact hm
  | some v =>
    dsimp only
    split
    · exact updGo_pres invEqSelf _ _ _ _ (fun mm i hmm => updateAt_invEqSelf hmm)
        _ _ hm
    · exact hm

theorem sampleStep_invSelfTot {p : Profile} {fim : List (Nat × FunctionInfo)}
    {cpuIdx : Nat} {total : Int} {attr : Bool} {fn : String → Bool}
    {m : NodeMap} {s : Sample} (htot : 0 < total) (hvs : ∀ v ∈ s.value, 0 ≤ v)
    (hm : invSelfTot m) : invSelfTot (sampleStep p fim cpuIdx total attr fn m s) := by
  unfold sampleStep
  cases h : s.value[cpuIdx]? with
  | none => exact hm
  | some v =>
    dsimp only
    split
    · have hv : (0 : ℚ) ≤ (v : ℚ) := by
        exact_mod_cast hvs v (mem_of_getElemOpt h)
      have ht : (0 : ℚ) ≤ (total : ℚ) := by exact_mod_cast le_of_lt htot
      have hc : (0 : ℚ) ≤ (v : ℚ) / (total : ℚ) * 100 :=
        mul_nonneg (div_nonneg hv ht) (by norm_num)
      exact updGo_pres invSelfTot _ _ _ _ (fun mm i hmm => updateAt_invSelfTot hc hmm)
        _ _ hm
    · exact hm

/-- C2 (amended): for every profile on which the analysis succeeds,
`SelfAttrCPU ≥ SelfCPU` holds for every node provided the sample values
are non-negative, and with `attributeToParent = false` the two fields are
equal for every node unconditionally.  (As originally stated — without
the non-negativity proviso — the claim fails; see the counterexample.) -/
theorem c2_attr_monotonicity (p : Profile) (attr : Bool) (fn : String → Bool)
    (M : NodeMap) (h : AnalyzeCPUProfile (some p) attr fn = .ok M) :
    ((∀ s ∈ p.sample, ∀ v ∈ s.value, 0 ≤ v) →
      ∀ name nd, alookup M name = some nd → nd.selfCPU ≤ nd.selfAttrCPU) ∧
    (attr = false →
      ∀ name nd, alookup M name = some nd → nd.selfAttrCPU = nd.selfCPU) := by
  obtain ⟨fim, cpuIdx, hb, hc, ht, hM⟩ := analyze_ok_elim h
  constructor
  · intro hvals name nd hnd
    have htot : 0 < totalCPUSum p.sample cpuIdx :=
      lt_of_le_of_ne (totalCPUSum_nonneg _ _ hvals) (Ne.symm ht)
    have hinv : invLeSelf M := by
      rw [hM]
      apply foldl_pres invLeSelf _ p.sample [] (by intro pr hpr; cases hpr)
      intro a s hs ha
      exact sampleStep_invLeSelf htot (fun v hv => hvals s hs v hv) ha
    exact hinv (name, nd) (alookup_mem hnd)
  · intro hattr name nd hnd
    subst hattr
    have hinv : invEqSelf M := by
      rw [hM]
      apply foldl_pres invEqSelf _ p.sample [] (by intro pr hpr; cases hpr)
      intro a s hs ha
      exact sampleStep_invEqSelf ha
    exact hinv (name, nd) (alookup_mem hnd)

/-- C9: in every mapping returned by a successful analysis the `Children`
references are closed under the mapping — every stored child reference is
the non-nil pointer to the node keyed by the child's name (`some key` in
the pointer model), and that key is present in the mapping. -/
theorem c9_children_closed (p : Profile) (attr : Bool) (fn : String → Bool)
    (M : NodeMap) (h : AnalyzeCPUProfile (some p) attr fn = .ok M) :
    ∀ name nd, alookup M name = some nd →
      ∀ ch ∈ nd.children, ch.2 = some ch.1 ∧ (alookup M ch.1).isSome = true := by
  obtain ⟨fim, cpuIdx, hb, hc, ht, hM⟩ := analyze_ok_elim h
  intro name nd hnd
  have hinv : invChildren M := by
    rw [hM]
    apply foldl_pres invChildren _ p.sample [] (by intro pr hpr; cases hpr)
    intro a s hs ha
    exact sampleStep_invChildren ha
  exact hinv (name, nd) (alookup_mem hnd)

/-- C10: for every profile with non-negative sample values on which the
analysis succeeds, every node satisfies `SelfCPU ≤ TotalCPU`. -/
theorem c10_self_le_total (p : Profile) (attr : Bool) (fn : String → Bool)
    (M : NodeMap) (h : AnalyzeCPUProfile (some p) attr fn = .ok M)
    (hvals : ∀ s ∈ p.sample, ∀ v ∈ s.value, 0 ≤ v) :
    ∀ name nd, alookup M name = some nd → nd.selfCPU ≤ nd.totalCPU := by
  obtain ⟨fim, cpuIdx, hb, hc, ht, hM⟩ := analyze_ok_elim h
  intro name nd hnd
  have htot : 0 < totalCPUSum p.sample cpuIdx :=
    lt_of_le_of_ne (totalCPUSum_nonneg _ _ hvals) (Ne.symm ht)
  have hinv : invSelfTot M := by
    rw [hM]
    apply foldl_pres invSelfTot _ p.sample [] (by intro pr hpr; cases hpr)
    intro a s hs ha
    exact sampleStep_invSelfTot htot (fun v hv => hvals s hs v hv) ha
  exact hinv (name, nd) (alookup_mem hnd)

/-! ## Normalization of cpu times -/

theorem sampleCpuTimes_eq (samples : List Sample) (cpuIdx : Nat) (total : Int) :
    sampleCpuTimes samples cpuIdx total =
      (samples.filterMap (fun s => s.value[cpuIdx]?)).map
        (fun v : Int => (v : ℚ) / (total : ℚ) * 100) := by
  unfold sampleCpuTimes
  rw [List.map_filterMap]

theorem sum_map_divmul (vs : List Int) (T : ℚ) :
    (vs.map (fun v : Int => (v : ℚ) / T * 100)).sum = ((vs.sum : Int) : ℚ) / T * 100 := by
  induction vs with
  | nil => simp
  | cons v rest ih =>
    rw [List.map_cons, List.sum_cons, List.sum_cons, ih]
    push_cast
    ring

/-- C4 (amended): whenever a CPU column is selected and its total is
non-zero (the success conditions of the analysis), the `cpuTime` values of
the processed samples — each equal to `value/totalWeight * 100` by
construction — sum to exactly 100 over the rationals; and provided all
sample values are non-negative, each `cpuTime` lies in `[0, 100]`.  (As
originally stated — `[0, 100]` without the non-negativity proviso — the
claim fails; see the counterexample.) -/
theorem c4_normalization (p : Profile) (cpuIdx : Nat)
    (_hc : findCpuIdx p = .ok (some cpuIdx))
    (ht : totalCPUSum p.sample cpuIdx ≠ 0) :
    (sampleCpuTimes p.sample cpuIdx (totalCPUSum p.sample cpuIdx)).sum = 100 ∧
    ((∀ s ∈ p.sample, ∀ v ∈ s.value, 0 ≤ v) →
      ∀ t ∈ sampleCpuTimes p.sample cpuIdx (totalCPUSum p.sample cpuIdx),
        0 ≤ t ∧ t ≤ 100) := by
  constructor
  · rw [sampleCpuTimes_eq, sum_map_divmul, ← totalCPUSum_eq]
    have hT : ((totalCPUSum p.sample cpuIdx : Int) : ℚ) ≠ 0 := Int.cast_ne_zero.mpr ht
    field_simp
  · intro hvals t htl
    rw [sampleCpuTimes_eq] at htl
    rcases List.mem_map.mp htl with ⟨v, hv, rfl⟩
    have hvmem : ∀ x ∈ p.sample.filterMap (fun s => s.value[cpuIdx]?), 0 ≤ x := by
      intro x hx
      rcases List.mem_filterMap.mp hx with ⟨s, hs, hsx⟩
      exact hvals s hs x (mem_of_getElemOpt hsx)
    have hv0 : 0 ≤ v := hvmem v hv
    have hvle : v ≤ (p.sample.filterMap (fun s => s.value[cpuIdx]?)).sum :=
      List.single_le_sum hvmem v hv
    have htot : 0 < totalCPUSum p.sample cpuIdx :=
      lt_of_le_of_ne (totalCPUSum_nonneg _ _ hvals) (Ne.symm ht)
    have hTpos : (0 : ℚ) < ((totalCPUSum p.sample cpuIdx : Int) : ℚ) := by
      exact_mod_cast htot
    have hvq : ((v : Int) : ℚ) ≤ ((totalCPUSum p.sample cpuIdx : Int) : ℚ) := by
      rw [totalCPUSum_eq]
      exact_mod_cast hvle
    constructor
    · exact mul_nonneg (div_nonneg (by exact_mod_cast hv0) (le_of_lt hTpos))
        (by norm_num)
    · have hdiv : ((v : Int) : ℚ) / ((totalCPUSum p.sample cpuIdx : Int) : ℚ) ≤ 1 :=
        (div_le_one hTpos).mpr hvq
      calc ((v : Int) : ℚ) / ((totalCPUSum p.sample cpuIdx : Int) : ℚ) * 100
          ≤ 1 * 100 := mul_le_mul_of_nonneg_right hdiv (by norm_num)
        _ = 100 := by norm_num

/-! ## The stack resolver -/

theorem resolveGo_eq (p : Profile) (fim : List (Nat × FunctionInfo))
    (locIds : List Nat) :
    ∀ j acc, resolveGo p fim locIds j acc =
      acc ++ (locIds.take j).reverse.filterMap (resolveOne p fim) := by
  intro j
  induction j with
  | zero => intro acc; simp [resolveGo]
  | succ j ih =>
    intro acc
    show resolveGo p fim locIds j _ = _
    rw [ih, List.take_succ]
    cases h : locIds[j]? with
    | none => simp
    | some lid =>
      rw [show (locIds.take j ++ (some lid).toList).reverse =
          lid :: (locIds.take j).reverse by simp]
      rw [List.filterMap_cons]
      cases hr : resolveOne p fim lid with
      | none => simp [hr]
      | some st => simp [hr]

/-- C6: the resolver loop consumes the leaf-first `locationIds` from the
last index down to the first, appending resolved frames, so its output is
the reversal of the input order restricted to resolvable ids (root-first);
a dangling location id, or a location with an empty line list, drops the
frame with no placeholder; and only the first line entry of a location is
consulted (the rest of the line list does not appear in the result). -/
theorem c6_resolver (p : Profile) (fim : List (Nat × FunctionInfo))
    (locIds : List Nat) :
    resolveStack p fim locIds = locIds.reverse.filterMap (resolveOne p fim) ∧
    (∀ lid, findLocation p lid = none → resolveOne p fim lid = none) ∧
    (∀ lid loc, findLocation p lid = some loc → loc.line = [] →
      resolveOne p fim lid = none) ∧
    (∀ lid loc l rest, findLocation p lid = some loc → loc.line = l :: rest →
      resolveOne p fim lid =
        (alookup fim l.functionId).map (fun info => Stack.mk info.name info.fileName)) := by
  refine ⟨?_, ?_, ?_, ?_⟩
  · rw [resolveStack, resolveGo_eq, List.take_length, List.nil_append]
  · intro lid h
    unfold resolveOne
    rw [h]
  · intro lid loc h hl
    unfold resolveOne
    rw [h]
    dsimp only
    rw [hl]
  · intro lid loc l rest h hl
    unfold resolveOne
    rw [h]
    dsimp only
    rw [hl]

/-- C8 (amended): in the mapping of a successful analysis, the `FileName`
of each function node is the file name of the first resolution of that
name in encounter order: samples in input order, and each resolved stack
processed from the leaf (index `n-1`) to the root (index 0); later
resolutions never overwrite it.  (As originally stated — root-to-leaf
within a stack — the claim fails; see the counterexample.) -/
theorem c8_first_resolution_filename (p : Profile) (attr : Bool) (fn : String → Bool)
    (M : NodeMap) (name : String) (fim : List (Nat × FunctionInfo)) (cpuIdx : Nat)
    (hb : buildFunctionInfoMap p = .ok fim)
    (hcc : findCpuIdx p = .ok (some cpuIdx))
    (h : AnalyzeCPUProfile (some p) attr fn = .ok M) :
    fileF M name = firstFileName p fim cpuIdx p.sample name := by
  obtain ⟨fim2, idx2, hb2, hc2, ht2, hM⟩ := analyze_ok_elim h
  rw [hb] at hb2
  injection hb2 with hb2
  rw [hcc] at hc2
  injection hc2 with hc2
  injection hc2 with hc2
  subst hb2
  subst hc2
  rw [hM, foldl_sampleStep_fileF]
  rw [show fileF [] name = none from rfl]
  rfl

/-! ## Error taxonomy and frame-resolution totality -/

/-- C5 (code bug): on a profile whose sample-type labels are all non-CPU
but whose `Function` table carries a negative name index, the claim (and
the spec's error taxonomy) demands the returned error `NoCPUSampleType`;
the code instead panics inside `buildFunctionInfoMap` — indexing the
string table at -1 after the one-sided guard `fn.Name <
int64(len(p.StringTable))` — and returns no error value at all. -/
theorem c5_error_taxonomy_bug :
    AnalyzeCPUProfile (some p5bad) false clsNone = .error .panic ∧
    (∀ st ∈ p5bad.sampleType,
      (goIndex p5bad.stringTable st.type).map isCpuLabel = some false) ∧
    AnalyzeError.panic ≠ AnalyzeError.noCPUSampleType := by
  refine ⟨rfl, by decide, by decide⟩

/-- C7 (code bug): a `Function` entry whose name index is negative passes
the Go guard and makes the analysis panic instead of being dropped, as
both the claim and the spec's tolerance invariant require; the same
profile with an out-of-range-from-above name index 99 is handled as
specified — the frame is dropped and the analysis completes. -/
theorem c7_negative_name_index_panics :
    buildFunctionInfoMap p7bad = .error () ∧
    AnalyzeCPUProfile (some p7bad) false clsNone = .error .panic ∧
    AnalyzeCPUProfile (some p7dropped) false clsNone = .ok [] := by
  refine ⟨rfl, rfl, rfl⟩

/-! ## Counterexamples -/

/-- C2 counterexample: on `pNeg` (values 200 and -100) with attribution
enabled and `"B"` classified as core, the node `"A"` ends with
`SelfAttrCPU = 100 < 200 = SelfCPU`, refuting `SelfAttrCPU ≥ SelfCPU` as
universally stated. -/
theorem c2_counterexample :
    (alookup c2M "A").isSome = true ∧
    attrF c2M "A" = 100 ∧ selfF c2M "A" = 200 ∧ ¬ ((200 : ℚ) ≤ (100 : ℚ)) := by
  have hM : c2M =
      updateFunctionNodes (updateFunctionNodes [] c2s1 c2c1 true clsB)
        c2s2 c2c2 true clsB := rfl
  have hbase : attrF ([] : NodeMap) "A" = 0 ∧ selfF ([] : NodeMap) "A" = 0 := by
    constructor <;> rfl
  refine ⟨rfl, ?_, ?_, by norm_num⟩
  · rw [hM, updateFunctionNodes_attrF, updateFunctionNodes_attrF]
    rw [if_pos (show Option.map Stack.name c2s1[c2s1.length - 1]? = some "A" from rfl)]
    rw [if_neg (show ¬(attrHit c2s1 true clsB (c2s1.length - 2) = true ∧
      Option.map Stack.name c2s1[c2s1.length - 2]? = some "A") by decide)]
    rw [if_neg (show ¬(Option.map Stack.name c2s2[c2s2.length - 1]? = some "A") by
      decide)]
    rw [if_pos (show attrHit c2s2 true clsB (c2s2.length - 2) = true ∧
      Option.map Stack.name c2s2[c2s2.length - 2]? = some "A" by decide)]
    rw [hbase.1]
    norm_num [c2c1, c2c2]
  · rw [hM, updateFunctionNodes_selfF, updateFunctionNodes_selfF]
    rw [if_pos (show Option.map Stack.name c2s1[c2s1.length - 1]? = some "A" from rfl)]
    rw [if_neg (show ¬(Option.map Stack.name c2s2[c2s2.length - 1]? = some "A") by
      decide)]
    rw [hbase.2]
    norm_num [c2c1]

/-- C4 counterexample: on `p4neg` the analysis succeeds and the processed
samples' `cpuTime` values are `[200, -100]`; the first exceeds 100,
refuting `cpuTime ∈ [0, 100]` as universally stated. -/
theorem c4_counterexample :
    (AnalyzeCPUProfile (some p4neg) false clsNone).toOption.isSome = true ∧
    findCpuIdx p4neg = .ok (some 0) ∧
    totalCPUSum p4neg.sample 0 = 100 ∧
    sampleCpuTimes p4neg.sample 0 100 = [200, -100] ∧
    ¬ ((200 : ℚ) ≤ (100 : ℚ)) := by
  refine ⟨by decide, rfl, by decide, ?_, by norm_num⟩
  have h : sampleCpuTimes p4neg.sample 0 100 =
      [((200 : Int) : ℚ) / ((100 : Int) : ℚ) * 100,
       ((-100 : Int) : ℚ) / ((100 : Int) : ℚ) * 100] := rfl
  rw [h]
  norm_num

/-- C8 counterexample: processing the single stack `c8stack` (names
`A, B, A` root-first, files `f1, g, f2`) sets `A`'s `FileName` to `"f2"` —
the Go loop runs leaf-to-root, so the leaf occurrence is encountered
first — while the claimed root-to-leaf order predicts `"f1"`. -/
theorem c8_counterexample :
    fileF (updateFunctionNodes [] c8stack 1 false clsNone) "A" = some "f2" ∧
    (c8stack.find? (fun s => s.name == "A")).map Stack.fileName = some "f1" ∧
    (some "f2" : Option String) ≠ some "f1" := by
  refine ⟨by decide, by decide, by decide⟩

/-! ## Witnesses -/

theorem c1_witness :
    2 ≤ c1stack.length ∧
    ((attrF (updateFunctionNodes [] c1stack 5 true clsQ) "p" -
        selfF (updateFunctionNodes [] c1stack 5 true clsQ) "p"
      = (attrF [] "p" - selfF [] "p") +
          (if true = true ∧ clsQ (leafName c1stack) = true ∧ "p" = parentName c1stack
           then 5 else 0)) ∧
    selfF (updateFunctionNodes [] c1stack 5 true clsQ) "p"
      = selfF [] "p" + (if "p" = leafName c1stack then 5 else 0)) :=
  ⟨by decide, c1_parent_attribution [] c1stack 5 true clsQ "p" (by decide)⟩

theorem c2_witness :
    AnalyzeCPUProfile (some pW) false clsW = .ok mW ∧
    (∀ s ∈ pW.sample, ∀ v ∈ s.value, 0 ≤ v) ∧
    (∀ name nd, alookup mW name = some nd → nd.selfCPU ≤ nd.selfAttrCPU) ∧
    (∀ name nd, alookup mW name = some nd → nd.selfAttrCPU = nd.selfCPU) := by
  have hok : AnalyzeCPUProfile (some pW) false clsW = .ok mW := by rfl
  exact ⟨hok, by decide,
    (c2_attr_monotonicity pW false clsW mW hok).1 (by decide),
    (c2_attr_monotonicity pW false clsW mW hok).2 rfl⟩

theorem c4_witness :
    findCpuIdx pW = .ok (some 0) ∧
    totalCPUSum pW.sample 0 ≠ 0 ∧
    (sampleCpuTimes pW.sample 0 (totalCPUSum pW.sample 0)).sum = 100 ∧
    (∀ t ∈ sampleCpuTimes pW.sample 0 (totalCPUSum pW.sample 0), 0 ≤ t ∧ t ≤ 100) := by
  have h := c4_normalization pW 0 rfl (by decide)
  exact ⟨rfl, by decide, h.1, h.2 (by decide)⟩

theorem c6_witness :
    resolveStack pW fimW [2, 1] =
      ([2, 1] : List Nat).reverse.filterMap (resolveOne pW fimW) ∧
    resolveOne pW fimW 99 = none :=
  ⟨(c6_resolver pW fimW [2, 1]).1,
    (c6_resolver pW fimW [2, 1]).2.1 99 (by decide)⟩

theorem c8_witness :
    buildFunctionInfoMap pW = .ok fimW ∧
    findCpuIdx pW = .ok (some 0) ∧
    AnalyzeCPUProfile (some pW) true clsW = .ok mWattr ∧
    fileF mWattr "main" = firstFileName pW fimW 0 pW.sample "main" := by
  have hb : buildFunctionInfoMap pW = .ok fimW := by rfl
  have hc : findCpuIdx pW = .ok (some 0) := rfl
  have hok : AnalyzeCPUProfile (some pW) true clsW = .ok mWattr := by rfl
  exact ⟨hb, hc, hok,
    c8_first_resolution_filename pW true clsW mWattr "main" fimW 0 hb hc hok⟩

theorem c9_witness :
    AnalyzeCPUProfile (some pW) true clsW = .ok mWattr ∧
    (∀ name nd, alookup mWattr name = some nd →
      ∀ ch ∈ nd.children, ch.2 = some ch.1 ∧ (alookup mWattr ch.1).isSome = true) := by
  have hok : AnalyzeCPUProfile (some pW) true clsW = .ok mWattr := by rfl
  exact ⟨hok, c9_children_closed pW true clsW mWattr hok⟩

theorem c10_witness :
    AnalyzeCPUProfile (some pW) true clsW = .ok mWattr ∧
    (∀ s ∈ pW.sample, ∀ v ∈ s.value, 0 ≤ v) ∧
    (∀ name nd, alookup mWattr name = some nd → nd.selfCPU ≤ nd.totalCPU) := by
  have hok : AnalyzeCPUProfile (some pW) true clsW = .ok mWattr := by rfl
  exact ⟨hok, by decide, c10_self_le_total pW true clsW mWattr hok (by decide)⟩

end PProf
